import Mathlib

/-!
Verification of the evolution-suite agent dashboard core:
the zustand agent store (`frontend/src/stores/agentStore.ts`), the
WebSocket hook (`frontend/src/hooks/useWebSocket.ts`, post-fix version),
the code-block content splitter, and spec-level models of the backend
AgentManager / GuidanceChannel / Orchestrator operations that are not
part of the frontend sources.

JavaScript objects keyed by agent id are embedded as association lists
(`List (String × α)`) preserving JS object key insertion order; JS
`{...obj, [k]: v}` updates become `alistInsert`, destructuring removal
becomes a key filter, and JS string truthiness is modelled explicitly.
-/

namespace EvolutionSuite

/-- JS truthiness of a `string | null` value: `null` and `""` are falsy. -/
def jsTruthyStr : Option String → Bool
  | none => false
  | some s => s ≠ ""

/-- Whitespace characters removed by JavaScript `String.prototype.trim`
(ASCII whitespace plus NBSP and the BOM). -/
def jsIsWhitespace (c : Char) : Bool :=
  c = ' ' || c = '\t' || c = '\n' || c = '\r' ||
  c = (Char.ofNat 11) || c = (Char.ofNat 12) ||
  c = (Char.ofNat 160) || c = (Char.ofNat 65279)

/-- `x.trim()` is truthy (non-empty) iff `x` contains a non-whitespace char. -/
def jsTrimTruthy (l : List Char) : Bool :=
  l.any (fun c => !(jsIsWhitespace c))

/-! ### Association lists modelling JS objects -/

/-- First-match lookup of a key (JS property access). -/
def alistLookup {α : Type} (k : String) : List (String × α) → Option α
  | [] => none
  | (k₁, v) :: rest => if k₁ = k then some v else alistLookup k rest

/-- JS `{...obj, [k]: v}`: an existing key keeps its position and is
overwritten, a new key is appended at the end. -/
def alistInsert {α : Type} : List (String × α) → String → α → List (String × α)
  | [], k, v => [(k, v)]
  | (k₁, v₁) :: rest, k, v =>
      if k₁ = k then (k, v) :: rest else (k₁, v₁) :: alistInsert rest k v

/-- JS `const { [k]: _, ...rest } = obj`: drop the key, keep the order. -/
def alistRemove {α : Type} (l : List (String × α)) (k : String) : List (String × α) :=
  l.filter (fun p => p.1 ≠ k)

/-- JS `Object.keys`, in insertion order. -/
def alistKeys {α : Type} (l : List (String × α)) : List String :=
  l.map Prod.fst

theorem alistLookup_alistInsert {α : Type} (l : List (String × α)) (k : String) (v : α) :
    alistLookup k (alistInsert l k v) = some v := by
  induction l with
  | nil => simp [alistInsert, alistLookup]
  | cons p rest ih =>
      obtain ⟨k₁, v₁⟩ := p
      by_cases h : k₁ = k
      · simp [alistInsert, alistLookup, h]
      · simp [alistInsert, alistLookup, h, ih]

theorem alistLookup_alistInsert_ne {α : Type} (l : List (String × α)) (k k₂ : String)
    (v : α) (h : k₂ ≠ k) : alistLookup k₂ (alistInsert l k v) = alistLookup k₂ l := by
  have hne : ¬ (k = k₂) := fun hkk => h hkk.symm
  induction l with
  | nil => simp [alistInsert, alistLookup, hne]
  | cons p rest ih =>
      obtain ⟨k₁, v₁⟩ := p
      by_cases hk : k₁ = k
      · subst hk
        simp [alistInsert, alistLookup, hne]
      · by_cases hk₂ : k₁ = k₂ <;> simp [alistInsert, alistLookup, hk, hk₂, h, ih]

theorem alistLookup_alistRemove {α : Type} (l : List (String × α)) (k : String) :
    alistLookup k (alistRemove l k) = none := by
  induction l with
  | nil => simp [alistRemove, alistLookup]
  | cons p rest ih =>
      obtain ⟨k₁, v₁⟩ := p
      by_cases h : k₁ = k
      · simpa [alistRemove, List.filter, h] using ih
      · simpa [alistRemove, List.filter, h, alistLookup] using ih

theorem alistLookup_eq_none_iff {α : Type} (l : List (String × α)) (k : String) :
    alistLookup k l = none ↔ k ∉ alistKeys l := by
  induction l with
  | nil => simp [alistLookup, alistKeys]
  | cons p rest ih =>
      obtain ⟨k₁, v₁⟩ := p
      by_cases h : k₁ = k
      · simp [alistLookup, alistKeys, h]
      · have h₂ : ¬ k = k₁ := fun hkk => h hkk.symm
        simp [alistLookup, alistKeys, h, h₂, ih]

theorem alistRemove_eq_self {α : Type} (l : List (String × α)) (k : String)
    (h : alistLookup k l = none) : alistRemove l k = l := by
  induction l with
  | nil => rfl
  | cons p rest ih =>
      obtain ⟨k₁, v₁⟩ := p
      by_cases hk : k₁ = k
      · simp [alistLookup, hk] at h
      · simp only [alistLookup] at h
        rw [if_neg hk] at h
        have h₂ : alistRemove rest k = rest := ih h
        simp only [alistRemove, List.filter_cons] at h₂ ⊢
        simp only [h₂]
        simp [hk]

theorem alistKeys_alistRemove {α : Type} (l : List (String × α)) (k : String) :
    alistKeys (alistRemove l k) = (alistKeys l).filter (fun x => x ≠ k) := by
  induction l with
  | nil => rfl
  | cons p rest ih =>
      obtain ⟨k₁, v₁⟩ := p
      simp only [alistRemove, alistKeys, List.filter_cons] at ih ⊢
      by_cases h : k₁ = k
      · simpa [h] using ih
      · simpa [h] using ih

theorem alistLookup_isSome_of_mem_keys {α : Type} (l : List (String × α)) (k : String)
    (h : k ∈ alistKeys l) : alistLookup k l ≠ none := by
  intro hnone
  exact (alistLookup_eq_none_iff l k).mp hnone h

/-! ### Data model (`frontend/src/lib/types.ts`) -/

/-- `AgentType`. -/
inductive AgentType
  | coordinator | worker | evaluator
deriving DecidableEq, Repr

/-- `AgentStatus`: the seven declared states. -/
inductive AgentStatus
  | idle | starting | running | paused | stopping | stopped | failed
deriving DecidableEq, Repr

/-- `UsageMetrics` (JS numbers embedded as ℕ counters and ℚ cost). -/
structure UsageMetrics where
  inputTokens : Nat
  outputTokens : Nat
  cacheReadTokens : Nat
  cacheCreationTokens : Nat
  costUsd : Rat
  requests : Nat
deriving DecidableEq, Repr

/-- `Agent`. -/
structure Agent where
  id : String
  type : AgentType
  status : AgentStatus
  currentTask : Option String
  goal : Option String
  startedAt : Option String
  finishedAt : Option String
  filesModified : List String
  toolsUsed : Nat
  outputLines : Nat
  error : Option String
  usage : Option UsageMetrics
  model : Option String
  assignedBy : Option String
  delegatedTo : Option (List String)
  waitingFor : Option String
deriving DecidableEq, Repr

/-- `OutputLine.type` variants. -/
inductive OutputLineType
  | thinking | thinkingDelta | text | textDelta | toolUse | toolResult | error | result
deriving DecidableEq, Repr

/-- `OutputLine` (metadata embedded as a string-valued record). -/
structure OutputLine where
  timestamp : String
  content : String
  type : OutputLineType
  metadata : List (String × String)
deriving DecidableEq, Repr

/-- `TaskType`. -/
inductive TaskType
  | EVOLVE | CLEANUP | BUGFIX | DONE
deriving DecidableEq, Repr

/-- `Cycle`. -/
structure Cycle where
  cycle : Nat
  taskType : TaskType
  description : String
  success : Bool
  filesModified : List String
  toolsUsed : List (String × Nat)
  durationSeconds : Rat
  commitHash : Option String
  error : Option String
deriving DecidableEq, Repr

/-- `Prompt`. -/
structure Prompt where
  name : String
  content : String
  isCustom : Bool
  lastModified : Option String
deriving DecidableEq, Repr

/-- `CyclePhase`. -/
inductive CyclePhase
  | IDLE | COORDINATING | WORKING | EVALUATING | COMPLETED | FAILED
deriving DecidableEq, Repr

/-! ### Agent store (`frontend/src/stores/agentStore.ts`) -/

/-- `AgentOutputBuffer`. -/
structure AgentOutputBuffer where
  lines : List OutputLine
  maxLines : Nat
deriving DecidableEq, Repr

/-- `MAX_OUTPUT_LINES = 1000`. -/
def MAX_OUTPUT_LINES : Nat := 1000

/-- The zustand store state (the data fields of `AgentStore`). -/
structure AgentStore where
  connected : Bool
  running : Bool
  cycle : Nat
  phase : CyclePhase
  agents : List (String × Agent)
  outputBuffers : List (String × AgentOutputBuffer)
  selectedAgentId : Option String
  cycles : List Cycle
  prompts : List (String × Prompt)
deriving DecidableEq, Repr

/-- The store's initial state. -/
def initialStore : AgentStore :=
  { connected := false, running := false, cycle := 0, phase := CyclePhase.IDLE,
    agents := [], outputBuffers := [], selectedAgentId := none, cycles := [],
    prompts := [] }

/-- `setAgent`. -/
def setAgent (s : AgentStore) (a : Agent) : AgentStore :=
  { s with agents := alistInsert s.agents a.id a }

/-- `removeAgent`. -/
def removeAgent (s : AgentStore) (agentId : String) : AgentStore :=
  { s with agents := alistRemove s.agents agentId }

/-- `updateAgentStatus`: no-op for an unknown id, otherwise overwrites the
agent's status with the given one. -/
def updateAgentStatus (s : AgentStore) (agentId : String) (status : AgentStatus) :
    AgentStore :=
  match alistLookup agentId s.agents with
  | none => s
  | some a => { s with agents := alistInsert s.agents agentId { a with status := status } }

/-- `addOutputLine`: appends to the agent's buffer (creating `{lines: [],
maxLines: MAX_OUTPUT_LINES}` when absent) and trims the oldest lines when the
buffer exceeds `maxLines`. -/
def addOutputLine (s : AgentStore) (agentId : String) (line : OutputLine) : AgentStore :=
  let buffer := (alistLookup agentId s.outputBuffers).getD ⟨[], MAX_OUTPUT_LINES⟩
  let newLines := buffer.lines ++ [line]
  let newLines :=
    if buffer.maxLines < newLines.length then
      newLines.drop (newLines.length - buffer.maxLines)
    else newLines
  { s with outputBuffers :=
      alistInsert s.outputBuffers agentId { buffer with lines := newLines } }

/-- `clearOutput`. -/
def clearOutput (s : AgentStore) (agentId : String) : AgentStore :=
  { s with outputBuffers := alistInsert s.outputBuffers agentId ⟨[], MAX_OUTPUT_LINES⟩ }

/-- `addCycle`: prepends the record and keeps the most recent 50. -/
def addCycle (s : AgentStore) (c : Cycle) : AgentStore :=
  { s with cycles := (c :: s.cycles).take 50 }

/-- `setCycles`. -/
def setCycles (s : AgentStore) (cs : List Cycle) : AgentStore :=
  { s with cycles := cs }

/-- `setPrompt`. -/
def setPrompt (s : AgentStore) (p : Prompt) : AgentStore :=
  { s with prompts := alistInsert s.prompts p.name p }

/-- JS `x || null` on an optional string: `""` collapses to `null`. -/
def jsStrOrNull : Option String → Option String
  | none => none
  | some x => if x = "" then none else some x

/-- A parsed WebSocket event message: the `type` tag plus the optional
payload fields the store's `handleEvent` reads. -/
structure WSEventMsg where
  type : String
  timestamp : String
  agent : Option Agent := none
  agentId : Option String := none
  line : Option OutputLine := none
  status : Option AgentStatus := none
  cycle : Option Nat := none
  result : Option Cycle := none
  phase : Option CyclePhase := none
deriving DecidableEq, Repr

/-- `handleEvent`: the store's switch over the event type tag. JS truthiness
guards (`if (event.agentId)` …) are modelled explicitly; in particular an
empty-string `agentId` fails the guard. -/
def handleEvent (s : AgentStore) (e : WSEventMsg) : AgentStore :=
  if e.type = "connected" then { s with connected := true }
  else if e.type = "agent_spawned" then
    match e.agent with
    | some a =>
        let s₁ := setAgent s a
        if jsTruthyStr s.selectedAgentId then s₁
        else { s₁ with selectedAgentId := some a.id }
    | none => s
  else if e.type = "agent_output" then
    match e.agentId, e.line with
    | some k, some ln => if k ≠ "" then addOutputLine s k ln else s
    | _, _ => s
  else if e.type = "agent_status" then
    match e.agentId, e.status with
    | some k, some st => if k ≠ "" then updateAgentStatus s k st else s
    | _, _ => s
  else if e.type = "agent_killed" then
    match e.agentId with
    | some k =>
        if k ≠ "" then
          let s₁ := removeAgent s k
          if s.selectedAgentId = some k then
            let remainingIds := (alistKeys s.agents).filter (fun id => id ≠ k)
            { s₁ with selectedAgentId := jsStrOrNull remainingIds.head? }
          else s₁
        else s
    | none => s
  else if e.type = "cycle_started" then
    match e.cycle with
    | some n => { s with cycle := n }
    | none => s
  else if e.type = "cycle_completed" ∨ e.type = "cycle_failed" then
    match e.result with
    | some c => addCycle s c
    | none => s
  else if e.type = "phase_changed" then
    match e.phase with
    | some p => { s with phase := p }
    | none => s
  else if e.type = "orchestrator_started" then { s with running := true }
  else if e.type = "orchestrator_stopped" then
    { s with running := false, phase := CyclePhase.IDLE }
  else s

/-! ### WebSocket hook (`frontend/src/hooks/useWebSocket.ts`, post-fix
version carrying the ping handler and the intentional-close guard) -/

/-- The reconnect delay passed to `setTimeout` (ms). -/
def RECONNECT_DELAY_MS : Nat := 2000

/-- The hook's ref-cell state. Sockets are numbered by creation order;
`attachedClose` lists the sockets whose `onclose` handler is still attached
(the hook sets `onclose = null` before an intentional close).
`connectCount` counts `new WebSocket(...)` constructions. -/
structure WSClient where
  isCleaningUp : Bool
  reconnectTimeout : Option Nat
  wsRef : Option Nat
  attachedClose : List Nat
  nextId : Nat
  connected : Bool
  connectCount : Nat
deriving DecidableEq, Repr

/-- The hook's initial ref state. -/
def wsInit : WSClient :=
  { isCleaningUp := false, reconnectTimeout := none, wsRef := none,
    attachedClose := [], nextId := 0, connected := false, connectCount := 0 }

/-- `connect()`: returns early during cleanup; otherwise clears any pending
reconnect timer, detaches and closes the previous socket, and opens a new
socket with its handlers attached. -/
def wsConnect (s : WSClient) : WSClient :=
  if s.isCleaningUp then s
  else
    let s := { s with reconnectTimeout := none }
    let s :=
      match s.wsRef with
      | some oldWs =>
          { s with
            attachedClose := s.attachedClose.filter (fun w => w ≠ oldWs),
            wsRef := none }
      | none => s
    { s with
      wsRef := some s.nextId,
      attachedClose := s.attachedClose ++ [s.nextId],
      nextId := s.nextId + 1,
      connectCount := s.connectCount + 1 }

/-- The effect's mount body: resets the cleanup flag and connects. -/
def wsMount (s : WSClient) : WSClient :=
  wsConnect { s with isCleaningUp := false }

/-- The effect's cleanup (the caller-initiated close): sets the cleanup
flag, cancels any pending reconnect timer, detaches the current socket's
`onclose` handler and closes it. -/
def wsCleanup (s : WSClient) : WSClient :=
  let s := { s with isCleaningUp := true, reconnectTimeout := none }
  match s.wsRef with
  | some w =>
      { s with
        attachedClose := s.attachedClose.filter (fun x => x ≠ w),
        wsRef := none }
  | none => s

/-- A socket's close event reaching the hook: only does anything while the
socket's `onclose` handler is attached; schedules a reconnect only when not
cleaning up and the closing socket is still the current one. -/
def wsCloseFired (s : WSClient) (w : Nat) : WSClient :=
  if w ∈ s.attachedClose then
    let s := { s with connected := false }
    if ¬ s.isCleaningUp ∧ s.wsRef = some w then
      { s with reconnectTimeout := some RECONNECT_DELAY_MS }
    else s
  else s

/-- A socket's open event reaching the hook (`onopen`). -/
def wsOpenFired (s : WSClient) (_w : Nat) : WSClient :=
  { s with connected := true }

/-- The reconnect timer firing: its callback invokes `connect()`. -/
def wsTimerFired (s : WSClient) : WSClient :=
  match s.reconnectTimeout with
  | some _ => wsConnect s
  | none => s

/-- Events that can reach the hook without the caller re-mounting it. -/
inductive WSPassiveEv
  | closeEv (w : Nat)
  | openEv (w : Nat)
  | timerEv
deriving DecidableEq, Repr

/-- One passive event step. -/
def wsPassiveStep (s : WSClient) : WSPassiveEv → WSClient
  | WSPassiveEv.closeEv w => wsCloseFired s w
  | WSPassiveEv.openEv w => wsOpenFired s w
  | WSPassiveEv.timerEv => wsTimerFired s

/-- Run a sequence of passive events. -/
def wsRunPassive (s : WSClient) (evs : List WSPassiveEv) : WSClient :=
  evs.foldl wsPassiveStep s

/-- Messages the hook itself sends back on the socket. -/
inductive OutMsg
  | pong
deriving DecidableEq, Repr

/-- `ws.onmessage`: a ping is answered with a pong and dropped before the
store's handler; every other message is forwarded to `handleEvent`. Returns
the new store state, what was sent on the socket, and the messages
forwarded to the store's event handler. -/
def onMessage (store : AgentStore) (e : WSEventMsg) :
    AgentStore × List OutMsg × List WSEventMsg :=
  if e.type = "ping" then (store, [OutMsg.pong], [])
  else (handleEvent store e, [], [e])

/-! ### Spec-modelled backend operations

The AgentManager / GuidanceChannel / Orchestrator live in the Python
backend (`evolution_suite/…`), which is not among the frontend sources;
the definitions below are modelled from the spec's contracts. -/

/-- The bulk actions accepted by `bulkAction`. -/
inductive BulkAction
  | pause | resume | kill
deriving DecidableEq, Repr

/-- Per-id outcome of an action. -/
inductive ActionOutcome
  | success | notFound | invalidState
deriving DecidableEq, Repr

/-- Modelled from the spec: the backend AgentManager's single-id action
(missing from src/) — `NotFound` for an unknown id, `InvalidState` for an
illegal transition (`pause` only from `running`, `resume` only from
`paused`), and `kill` a no-op success on an already-terminal agent. -/
def applyAgentAction (pool : List (String × AgentStatus)) (id : String)
    (action : BulkAction) : ActionOutcome × List (String × AgentStatus) :=
  match alistLookup id pool with
  | none => (ActionOutcome.notFound, pool)
  | some st =>
      match action with
      | BulkAction.pause =>
          if st = AgentStatus.running then
            (ActionOutcome.success, alistInsert pool id AgentStatus.paused)
          else (ActionOutcome.invalidState, pool)
      | BulkAction.resume =>
          if st = AgentStatus.paused then
            (ActionOutcome.success, alistInsert pool id AgentStatus.running)
          else (ActionOutcome.invalidState, pool)
      | BulkAction.kill =>
          if st = AgentStatus.stopped ∨ st = AgentStatus.failed then
            (ActionOutcome.success, pool)
          else (ActionOutcome.success, alistInsert pool id AgentStatus.stopped)

/-- One step of the bulk fold: apply the action to the next id on the
current pool and record its outcome. -/
def bulkStep (action : BulkAction)
    (acc : List (String × ActionOutcome) × List (String × AgentStatus))
    (id : String) :
    List (String × ActionOutcome) × List (String × AgentStatus) :=
  let r := applyAgentAction acc.2 id action
  (acc.1 ++ [(id, r.1)], r.2)

/-- Modelled from the spec: the backend's `bulkAction(ids, action)`
(missing from src/) — applies the action independently to each id in order
and collects a per-id outcome map; a failing id never aborts the batch. -/
def bulkAction (pool : List (String × AgentStatus)) (ids : List String)
    (action : BulkAction) :
    List (String × ActionOutcome) × List (String × AgentStatus) :=
  ids.foldl (bulkStep action) ([], pool)

/-- The two primitive effects of one guidance injection. -/
inductive CommOp
  | chanAppend (agentId content : String)
  | publish (agentId content : String)
deriving DecidableEq, Repr

/-- Durable guidance channels (one append-only file per agent id) plus the
EventBus delivery log. -/
structure CommState where
  channels : List (String × List String)
  delivered : List (String × String)
deriving DecidableEq, Repr

/-- Modelled from the spec: the effect sequence of the backend's
`injectGuidance` (missing from src/) — first the durable channel append,
then the EventBus notification. -/
def injectGuidanceOps (agentId content : String) : List CommOp :=
  [CommOp.chanAppend agentId content, CommOp.publish agentId content]

/-- Modelled from the spec: executing one primitive effect; the EventBus is
lossy, so a publish reaches the delivery log only when `deliver` holds,
while a channel append always commits. -/
def applyCommOp (deliver : Bool) (s : CommState) : CommOp → CommState
  | CommOp.chanAppend id c =>
      { s with channels :=
          alistInsert s.channels id (((alistLookup id s.channels).getD []) ++ [c]) }
  | CommOp.publish id c =>
      if deliver then { s with delivered := s.delivered ++ [(id, c)] } else s

/-- Modelled from the spec: one `injectGuidance` call, run as its effect
sequence with the given EventBus delivery fate. -/
def injectGuidance (deliver : Bool) (s : CommState) (id c : String) : CommState :=
  (injectGuidanceOps id c).foldl (applyCommOp deliver) s

/-- The durable channel contents for one agent id. -/
def chanOf (s : CommState) (id : String) : List String :=
  (alistLookup id s.channels).getD []

/-- Modelled from the spec: the Orchestrator's control state (missing from
src/) — a running flag, a graceful-stop request, the process-lifetime cycle
counter, and the recorded history as (cycle number, success) pairs. -/
structure OrchState where
  running : Bool
  stopRequested : Bool
  cycleCounter : Nat
  history : List (Nat × Bool)
deriving DecidableEq, Repr

/-- Operations on the Orchestrator relevant to cycle numbering. -/
inductive OrchOp
  | start
  | stop
  | forceStop
  | finishCycle (success : Bool)
deriving DecidableEq, Repr

/-- The Orchestrator's initial state. -/
def orchInit : OrchState :=
  { running := false, stopRequested := false, cycleCounter := 1, history := [] }

/-- Modelled from the spec: one Orchestrator control step (missing from
src/) — `start` is a no-op when already running; every attempted cycle
while running appends exactly one record carrying the current counter and
increments the counter; `forceStop` forces idle without touching the
counter (numbers are process-lifetime-unique). -/
def orchStep (s : OrchState) : OrchOp → OrchState
  | OrchOp.start =>
      if s.running then s else { s with running := true, stopRequested := false }
  | OrchOp.stop => { s with stopRequested := true }
  | OrchOp.forceStop => { s with running := false }
  | OrchOp.finishCycle success =>
      if s.running then
        { s with
          history := s.history ++ [(s.cycleCounter, success)],
          cycleCounter := s.cycleCounter + 1,
          running := !s.stopRequested }
      else s

/-- Run an operation sequence from the initial Orchestrator state. -/
def orchRun (ops : List OrchOp) : OrchState :=
  ops.foldl orchStep orchInit

/-! ### Code-block splitting (`parseCodeBlocks`) -/

/-- A part produced by `parseCodeBlocks`. -/
inductive PartType
  | text | code
deriving DecidableEq, Repr

/-- `ParsedContent`. -/
structure ParsedContent where
  type : PartType
  content : String
  language : Option String
deriving DecidableEq, Repr

/-- A regex `\w` character: ASCII letter, digit or underscore. -/
def isWordChar (c : Char) : Bool :=
  (('a' ≤ c && c ≤ 'z') || ('A' ≤ c && c ≤ 'Z') || ('0' ≤ c && c ≤ '9') || c = '_')

/-- Lazy `([\s\S]*?)\x60\x60\x60`: the shortest body followed by a closing
triple backtick; `none` when no closing fence exists. -/
def findClose : List Char → Option (List Char)
  | '`' :: '`' :: '`' :: _ => some []
  | c :: rest => (findClose rest).map (fun cs => c :: cs)
  | [] => none

/-- A match of `\x60\x60\x60(\w*)\n([\s\S]*?)\x60\x60\x60` anchored at the
head of the list: the language word, the body, and the matched length. -/
def matchFence : List Char → Option (List Char × List Char × Nat)
  | '`' :: '`' :: '`' :: rest =>
      let lang := rest.takeWhile isWordChar
      let rest₂ := rest.dropWhile isWordChar
      match rest₂ with
      | '\n' :: body =>
          match findClose body with
          | some code => some (lang, code, 3 + lang.length + 1 + code.length + 3)
          | none => none
      | _ => none
  | _ => none

/-- Leftmost match of the code-fence regex: the match index plus the
anchored match there. -/
def findMatch : List Char → Option (Nat × List Char × List Char × Nat)
  | [] => none
  | c :: rest =>
      match matchFence (c :: rest) with
      | some (lang, code, len) => some (0, lang, code, len)
      | none =>
          match findMatch rest with
          | some (idx, lang, code, len) => some (idx + 1, lang, code, len)
          | none => none

/-- The `exec` loop of `parseCodeBlocks`: text between fences is pushed when
its trim is truthy, each fenced block is pushed as a code part (empty
language word defaulting to `"text"`), and the leftover tail is pushed when
its trim is truthy. `fuel` bounds the recursion depth. -/
def parseLoop (fuel : Nat) (remaining : List Char) (parts : List ParsedContent) :
    List ParsedContent :=
  match fuel with
  | 0 => parts
  | Nat.succ fuel =>
      match findMatch remaining with
      | none =>
          if remaining.length ≠ 0 then
            if jsTrimTruthy remaining then
              parts ++ [⟨PartType.text, String.mk remaining, none⟩]
            else parts
          else parts
      | some (idx, lang, code, len) =>
          let textBefore := remaining.take idx
          let parts :=
            if 0 < idx then
              if jsTrimTruthy textBefore then
                parts ++ [⟨PartType.text, String.mk textBefore, none⟩]
              else parts
            else parts
          let language := if lang.isEmpty then "text" else String.mk lang
          let parts := parts ++ [⟨PartType.code, String.mk code, some language⟩]
          parseLoop fuel (remaining.drop (idx + len)) parts

/-- `parseCodeBlocks`: split a string into text and fenced-code parts,
falling back to one text part holding the whole input when nothing was
pushed. -/
def parseCodeBlocks (text : String) : List ParsedContent :=
  let parts := parseLoop (text.data.length + 1) text.data []
  if parts.isEmpty then [⟨PartType.text, text, none⟩] else parts

/-! ### Helper accessors and sample values -/

/-- The output buffer `handleEvent`/`addOutputLine` see for an id:
`outputBuffers[agentId] || { lines: [], maxLines: MAX_OUTPUT_LINES }`. -/
def bufOf (s : AgentStore) (agentId : String) : AgentOutputBuffer :=
  (alistLookup agentId s.outputBuffers).getD ⟨[], MAX_OUTPUT_LINES⟩

/-- One append-and-trim step on a line buffer at capacity `MAX_OUTPUT_LINES`. -/
def trimStep (lines : List OutputLine) (line : OutputLine) : List OutputLine :=
  if MAX_OUTPUT_LINES < (lines ++ [line]).length then
    (lines ++ [line]).drop ((lines ++ [line]).length - MAX_OUTPUT_LINES)
  else lines ++ [line]

/-- A sequence of `addOutputLine` calls for one agent id. -/
def foldAddOutput (s : AgentStore) (agentId : String) (ls : List OutputLine) : AgentStore :=
  ls.foldl (fun st l => addOutputLine st agentId l) s

/-- A sequence of `addCycle` calls. -/
def foldAddCycle (s : AgentStore) (ls : List Cycle) : AgentStore :=
  ls.foldl addCycle s

/-- A concrete output line. -/
def sampleLine : OutputLine :=
  ⟨"2026-01-18T00:00:00Z", "hello", OutputLineType.text, []⟩

/-- A concrete cycle record. -/
def sampleCycle : Cycle :=
  ⟨1, TaskType.EVOLVE, "improve tests", true, [], [], 10, none, none⟩

/-- A minimal agent record with the given id, type and status. -/
def mkAgent (id : String) (t : AgentType) (st : AgentStatus) : Agent :=
  { id := id, type := t, status := st, currentTask := none, goal := none,
    startedAt := none, finishedAt := none, filesModified := [], toolsUsed := 0,
    outputLines := 0, error := none, usage := none, model := none,
    assignedBy := none, delegatedTo := none, waitingFor := none }

/-! ### C4: the output buffer is a bounded, oldest-evicted ring -/

theorem bufOf_addOutputLine (s : AgentStore) (agentId : String) (l : OutputLine)
    (h : (bufOf s agentId).maxLines = MAX_OUTPUT_LINES) :
    bufOf (addOutputLine s agentId l) agentId
      = ⟨trimStep (bufOf s agentId).lines l, MAX_OUTPUT_LINES⟩ := by
  simp only [bufOf] at h ⊢
  simp only [addOutputLine, alistLookup_alistInsert, Option.getD_some]
  rw [h]
  rfl

theorem bufOf_foldAddOutput : ∀ (ls : List OutputLine) (s : AgentStore) (agentId : String),
    (bufOf s agentId).maxLines = MAX_OUTPUT_LINES →
    bufOf (foldAddOutput s agentId ls) agentId
      = ⟨List.foldl trimStep (bufOf s agentId).lines ls, MAX_OUTPUT_LINES⟩ := by
  intro ls
  induction ls with
  | nil =>
      intro s agentId h
      have h₀ : bufOf (foldAddOutput s agentId []) agentId = bufOf s agentId := rfl
      rw [h₀, ← h]
      rfl
  | cons l ls ih =>
      intro s agentId h
      have h₁ := bufOf_addOutputLine s agentId l h
      have h₂ : (bufOf (addOutputLine s agentId l) agentId).maxLines = MAX_OUTPUT_LINES := by
        rw [h₁]
      have h₃ := ih (addOutputLine s agentId l) agentId h₂
      rw [h₁] at h₃
      exact h₃

set_option maxRecDepth 4000 in
theorem foldl_trimStep_drop : ∀ (ls acc : List OutputLine),
    acc.length ≤ MAX_OUTPUT_LINES →
    List.foldl trimStep acc ls
      = (acc ++ ls).drop (acc.length + ls.length - MAX_OUTPUT_LINES) := by
  intro ls
  induction ls with
  | nil =>
      intro acc h
      simp [Nat.sub_eq_zero_of_le h]
  | cons l ls ih =>
      intro acc h
      rw [List.foldl_cons]
      have hA : trimStep acc l = (acc ++ [l]).drop (acc.length + 1 - MAX_OUTPUT_LINES) := by
        unfold trimStep
        by_cases hc : MAX_OUTPUT_LINES < (acc ++ [l]).length
        · rw [if_pos hc]
          simp [List.length_append]
        · rw [if_neg hc]
          simp only [List.length_append, List.length_cons, List.length_nil] at hc
          rw [Nat.sub_eq_zero_of_le (by omega), List.drop_zero]
      have hAlen : (trimStep acc l).length ≤ MAX_OUTPUT_LINES := by
        rw [hA, List.length_drop]
        simp only [List.length_append, List.length_cons, List.length_nil]
        omega
      rw [ih _ hAlen, hA, List.length_drop]
      have hk : (acc.length + 1 - MAX_OUTPUT_LINES) ≤ (acc ++ [l]).length := by
        simp only [List.length_append, List.length_cons, List.length_nil]
        omega
      rw [← List.drop_append_of_le_length hk, List.drop_drop]
      have hcat : (acc ++ [l]) ++ ls = acc ++ l :: ls := by
        simp
      rw [hcat]
      refine congrArg (fun n => List.drop n (acc ++ l :: ls)) ?_
      simp only [List.length_append, List.length_cons, List.length_nil]
      omega

/-- C4: starting from an empty buffer, after any sequence of
`addOutputLine` calls for one agent id the buffer holds exactly the
`min n 1000` most recently added lines, in insertion order, and never
more than `MAX_OUTPUT_LINES = 1000` lines. -/
theorem C4_outputBuffer_ring (s : AgentStore) (agentId : String) (ls : List OutputLine)
    (h : alistLookup agentId s.outputBuffers = none) :
    (bufOf (foldAddOutput s agentId ls) agentId).lines
        = ls.drop (ls.length - MAX_OUTPUT_LINES)
    ∧ (bufOf (foldAddOutput s agentId ls) agentId).lines.length
        = min ls.length MAX_OUTPUT_LINES
    ∧ (bufOf (foldAddOutput s agentId ls) agentId).lines.length ≤ MAX_OUTPUT_LINES := by
  have hb : bufOf s agentId = ⟨[], MAX_OUTPUT_LINES⟩ := by
    simp [bufOf, h]
  have h₁ := bufOf_foldAddOutput ls s agentId (by rw [hb])
  rw [hb] at h₁
  have h₂ := foldl_trimStep_drop ls [] (by simp [MAX_OUTPUT_LINES])
  simp only [List.nil_append, List.length_nil, Nat.zero_add] at h₂
  have hlines : (bufOf (foldAddOutput s agentId ls) agentId).lines
      = ls.drop (ls.length - MAX_OUTPUT_LINES) := by
    rw [h₁]
    exact h₂
  refine ⟨hlines, ?_, ?_⟩
  · rw [hlines, List.length_drop]
    omega
  · rw [hlines, List.length_drop]
    omega

/-- C4 witness: one line added to a fresh store. -/
theorem C4_outputBuffer_ring_witness :
    alistLookup "a" initialStore.outputBuffers = none
    ∧ (bufOf (foldAddOutput initialStore "a" [sampleLine]) "a").lines = [sampleLine] := by
  refine ⟨rfl, ?_⟩
  have h := (C4_outputBuffer_ring initialStore "a" [sampleLine] rfl).1
  simpa using h

/-! ### C5: cycles are a bounded, newest-first history -/

theorem take_append_take {α : Type} (X Y : List α) (n : Nat) :
    (X ++ Y.take n).take n = (X ++ Y).take n := by
  by_cases h : n ≤ X.length
  · rw [List.take_append_of_le_length h, List.take_append_of_le_length h]
  · obtain ⟨i, rfl⟩ : ∃ i, n = X.length + i := ⟨n - X.length, by omega⟩
    rw [List.take_append, List.take_append, List.take_take]
    congr 2
    omega

theorem foldl_addCycleStep : ∀ (ls acc : List Cycle), acc.length ≤ 50 →
    List.foldl (fun cs c => (c :: cs).take 50) acc ls = (ls.reverse ++ acc).take 50 := by
  intro ls
  induction ls with
  | nil =>
      intro acc h
      simp [List.take_of_length_le h]
  | cons c ls ih =>
      intro acc h
      rw [List.foldl_cons, ih _ (by simp [List.length_take])]
      rw [take_append_take]
      congr 1
      simp

theorem foldAddCycle_cycles : ∀ (ls : List Cycle) (s : AgentStore),
    (foldAddCycle s ls).cycles
      = List.foldl (fun cs c => (c :: cs).take 50) s.cycles ls := by
  intro ls
  induction ls with
  | nil => intro s; rfl
  | cons c ls ih =>
      intro s
      have h : foldAddCycle s (c :: ls) = foldAddCycle (addCycle s c) ls := rfl
      rw [h, ih]
      rfl

/-- C5: starting from an empty history, after any sequence of `addCycle`
calls the store keeps at most 50 records — exactly the most recently added
ones, newest first — and an `addCycle` never alters a surviving
previously-recorded cycle (the new list past its head is a prefix of the
old list). -/
theorem C5_cycles_bounded_history (s : AgentStore) (ls : List Cycle) (h : s.cycles = []) :
    (foldAddCycle s ls).cycles = ls.reverse.take 50
    ∧ (foldAddCycle s ls).cycles.length = min ls.length 50
    ∧ (foldAddCycle s ls).cycles.length ≤ 50
    ∧ ∀ (s₂ : AgentStore) (c : Cycle),
        ((addCycle s₂ c).cycles).drop 1 = s₂.cycles.take 49 := by
  have h₁ : (foldAddCycle s ls).cycles = ls.reverse.take 50 := by
    rw [foldAddCycle_cycles, h, foldl_addCycleStep ls [] (by simp)]
    simp
  refine ⟨h₁, ?_, ?_, ?_⟩
  · rw [h₁, List.length_take, List.length_reverse]
    omega
  · rw [h₁, List.length_take, List.length_reverse]
    omega
  · intro s₂ c
    have h₂ : (addCycle s₂ c).cycles = c :: s₂.cycles.take 49 := by
      have : (50 : Nat) = 49 + 1 := rfl
      simp [addCycle, this, List.take_succ_cons]
    rw [h₂]
    rfl

/-- C5 witness: one cycle added to a fresh store. -/
theorem C5_cycles_bounded_history_witness :
    initialStore.cycles = []
    ∧ (foldAddCycle initialStore [sampleCycle]).cycles = [sampleCycle] := by
  refine ⟨rfl, ?_⟩
  have h := (C5_cycles_bounded_history initialStore [sampleCycle] rfl).1
  simpa using h

/-! ### C8: statuses are closed, but the store checks no transition graph -/

/-- The spec's declared transition graph (spec §4.1), stated from the
spec's words for comparison with the store's behavior: `spawn` creates in
`idle`; `start` re-enters `starting` from `idle`, `stopped` or `failed`;
`pause` only from `running`; `resume` only from `paused`; `kill` moves any
non-terminal state to `stopping`, which resolves to `stopped` or `failed`;
a subprocess signal ends `running` in `stopped` or `failed`. -/
def specDeclaredTransition : AgentStatus → AgentStatus → Bool
  | AgentStatus.idle, AgentStatus.starting => true
  | AgentStatus.stopped, AgentStatus.starting => true
  | AgentStatus.failed, AgentStatus.starting => true
  | AgentStatus.starting, AgentStatus.running => true
  | AgentStatus.paused, AgentStatus.running => true
  | AgentStatus.running, AgentStatus.paused => true
  | AgentStatus.idle, AgentStatus.stopping => true
  | AgentStatus.starting, AgentStatus.stopping => true
  | AgentStatus.running, AgentStatus.stopping => true
  | AgentStatus.paused, AgentStatus.stopping => true
  | AgentStatus.stopping, AgentStatus.stopped => true
  | AgentStatus.stopping, AgentStatus.failed => true
  | AgentStatus.running, AgentStatus.stopped => true
  | AgentStatus.running, AgentStatus.failed => true
  | _, _ => false

/-- A store holding one stopped agent `"a"`. -/
def c8Store : AgentStore :=
  { initialStore with agents := [("a", mkAgent "a" AgentType.worker AgentStatus.stopped)] }

/-- C8 counterexample: a status-update event moves agent `"a"` straight
from `stopped` to `paused`, although `stopped → paused` is not an edge of
the declared graph (`paused` may only be entered from `running`). -/
theorem C8_status_transitions_cex :
    (alistLookup "a" c8Store.agents).map Agent.status = some AgentStatus.stopped
    ∧ (alistLookup "a" (updateAgentStatus c8Store "a" AgentStatus.paused).agents).map
        Agent.status = some AgentStatus.paused
    ∧ specDeclaredTransition AgentStatus.stopped AgentStatus.paused = false := by
  refine ⟨rfl, ?_, rfl⟩
  rfl

/-- C8 (amended): an agent's status always lies in the seven declared
states (the closed `AgentStatus` union), but the store enforces no
transition graph: `updateAgentStatus` overwrites an existing agent's
status with any declared status whatever the current one, and is a no-op
for an unknown id. -/
theorem C8_status_applied_unconditionally :
    (∀ st : AgentStatus,
        st = AgentStatus.idle ∨ st = AgentStatus.starting ∨ st = AgentStatus.running
        ∨ st = AgentStatus.paused ∨ st = AgentStatus.stopping ∨ st = AgentStatus.stopped
        ∨ st = AgentStatus.failed)
    ∧ (∀ (s : AgentStore) (id : String) (st : AgentStatus),
        alistLookup id s.agents ≠ none →
        (alistLookup id (updateAgentStatus s id st).agents).map Agent.status = some st)
    ∧ (∀ (s : AgentStore) (id : String) (st : AgentStatus),
        alistLookup id s.agents = none → updateAgentStatus s id st = s) := by
  refine ⟨?_, ?_, ?_⟩
  · intro st
    cases st <;> simp
  · intro s id st h
    cases hl : alistLookup id s.agents with
    | none => exact absurd hl h
    | some a => simp [updateAgentStatus, hl, alistLookup_alistInsert]
  · intro s id st h
    simp [updateAgentStatus, h]

/-- C8 witness: the amended theorem applied to the concrete store. -/
theorem C8_status_applied_unconditionally_witness :
    alistLookup "a" c8Store.agents ≠ none
    ∧ (alistLookup "a" (updateAgentStatus c8Store "a" AgentStatus.running).agents).map
        Agent.status = some AgentStatus.running
    ∧ alistLookup "zz" c8Store.agents = none
    ∧ updateAgentStatus c8Store "zz" AgentStatus.running = c8Store := by
  have h₁ : alistLookup "a" c8Store.agents ≠ none := by
    simp [c8Store, initialStore, alistLookup]
  exact ⟨h₁, C8_status_applied_unconditionally.2.1 c8Store "a" AgentStatus.running h₁,
    rfl, C8_status_applied_unconditionally.2.2 c8Store "zz" AgentStatus.running rfl⟩

/-! ### C9: the `agent_killed` event -/

/-- An `agent_killed` event for the given id. -/
def killedMsg (k : String) : WSEventMsg :=
  { type := "agent_killed", timestamp := "", agentId := some k }

theorem handleEvent_killedMsg (s : AgentStore) (k : String) (hk : k ≠ "") :
    handleEvent s (killedMsg k) =
      if s.selectedAgentId = some k then
        { removeAgent s k with
          selectedAgentId :=
            jsStrOrNull (((alistKeys s.agents).filter (fun id => id ≠ k)).head?) }
      else removeAgent s k := by
  simp [handleEvent, killedMsg, hk]

/-- An agent whose id is the empty string. -/
def c9Agent : Agent := mkAgent "" AgentType.worker AgentStatus.running

/-- A store holding (and selecting) the empty-id agent. -/
def c9Store : AgentStore :=
  { initialStore with agents := [("", c9Agent)], selectedAgentId := some "" }

/-- C9 counterexample: an `agent_killed` event carrying `agentId = ""` is
dropped by the JS truthiness guard, so the killed id stays in the agents
map and stays selected, contradicting the claim for every store state and
every event. -/
theorem C9_agentKilled_cleanup_cex :
    (handleEvent c9Store (killedMsg "")).agents = [("", c9Agent)]
    ∧ alistLookup "" (handleEvent c9Store (killedMsg "")).agents ≠ none
    ∧ (handleEvent c9Store (killedMsg "")).selectedAgentId = some "" := by
  refine ⟨rfl, ?_, rfl⟩
  intro h
  simp [handleEvent, killedMsg, c9Store, initialStore, alistLookup] at h

/-- C9 (amended): for a nonempty killed id and a store whose agent ids are
all nonempty, `handleEvent` on `agent_killed` removes the id from the
agents map, never leaves it selected, reselects a remaining agent (or
`null` exactly when none remain) when the killed agent was selected, and
is idempotent. -/
theorem killedMsg_agents (s : AgentStore) (k : String) (hk : k ≠ "") :
    (handleEvent s (killedMsg k)).agents = alistRemove s.agents k := by
  rw [handleEvent_killedMsg s k hk]
  split <;> rfl

theorem killedMsg_selected_pos (s : AgentStore) (k : String) (hk : k ≠ "")
    (hsel : s.selectedAgentId = some k) :
    (handleEvent s (killedMsg k)).selectedAgentId
      = jsStrOrNull (((alistKeys s.agents).filter (fun id => id ≠ k)).head?) := by
  rw [handleEvent_killedMsg s k hk, if_pos hsel]

theorem killedMsg_selected_neg (s : AgentStore) (k : String) (hk : k ≠ "")
    (hsel : s.selectedAgentId ≠ some k) :
    (handleEvent s (killedMsg k)).selectedAgentId = s.selectedAgentId := by
  rw [handleEvent_killedMsg s k hk, if_neg hsel]
  rfl

theorem C9_agentKilled_cleanup (s : AgentStore) (k : String) (hk : k ≠ "")
    (hids : ∀ id ∈ alistKeys s.agents, id ≠ "") :
    alistLookup k (handleEvent s (killedMsg k)).agents = none
    ∧ (handleEvent s (killedMsg k)).selectedAgentId ≠ some k
    ∧ (s.selectedAgentId = some k →
        (∃ j, (handleEvent s (killedMsg k)).selectedAgentId = some j
            ∧ j ∈ alistKeys (handleEvent s (killedMsg k)).agents)
        ∨ ((handleEvent s (killedMsg k)).selectedAgentId = none
            ∧ (handleEvent s (killedMsg k)).agents = []))
    ∧ handleEvent (handleEvent s (killedMsg k)) (killedMsg k)
        = handleEvent s (killedMsg k) := by
  have hagents := killedMsg_agents s k hk
  have hlook : alistLookup k (handleEvent s (killedMsg k)).agents = none := by
    rw [hagents]
    exact alistLookup_alistRemove s.agents k
  have hselne : (handleEvent s (killedMsg k)).selectedAgentId ≠ some k := by
    by_cases hsel : s.selectedAgentId = some k
    · rw [killedMsg_selected_pos s k hk hsel]
      cases hh : ((alistKeys s.agents).filter (fun id => id ≠ k)).head? with
      | none => simp [jsStrOrNull, hh]
      | some j =>
          have hj : j ∈ (alistKeys s.agents).filter (fun id => id ≠ k) :=
            List.mem_of_mem_head? (Option.mem_def.mpr hh)
          have hjk : j ≠ k := by
            have := (List.mem_filter.mp hj).2
            simpa using this
          have hje : j ≠ "" := hids j (List.mem_filter.mp hj).1
          simp [jsStrOrNull, hh, hje, hjk]
    · rw [killedMsg_selected_neg s k hk hsel]
      exact hsel
  refine ⟨hlook, hselne, ?_, ?_⟩
  · intro hsel
    rw [killedMsg_selected_pos s k hk hsel]
    cases hh : ((alistKeys s.agents).filter (fun id => id ≠ k)).head? with
    | none =>
        right
        constructor
        · simp [jsStrOrNull, hh]
        · have h₀ : (alistKeys s.agents).filter (fun id => id ≠ k) = [] := by
            rwa [List.head?_eq_none_iff] at hh
          have h₁ : alistKeys (alistRemove s.agents k) = [] := by
            rw [alistKeys_alistRemove, h₀]
          rw [hagents]
          exact List.map_eq_nil_iff.mp h₁
    | some j =>
        left
        have hj : j ∈ (alistKeys s.agents).filter (fun id => id ≠ k) :=
          List.mem_of_mem_head? (Option.mem_def.mpr hh)
        have hje : j ≠ "" := hids j (List.mem_filter.mp hj).1
        refine ⟨j, ?_, ?_⟩
        · simp [jsStrOrNull, hh, hje]
        · rw [hagents, alistKeys_alistRemove]
          exact hj
  · conv_lhs => rw [handleEvent_killedMsg _ k hk]
    rw [if_neg hselne]
    unfold removeAgent
    rw [alistRemove_eq_self (handleEvent s (killedMsg k)).agents k hlook]

/-- C9 witness: killing agent `"b"` in a two-agent store where `"b"` is
selected removes it and reselects `"a"`; reprocessing changes nothing. -/
theorem C9_agentKilled_cleanup_witness :
    (∀ id ∈ alistKeys ({ initialStore with
        agents := [("a", mkAgent "a" AgentType.worker AgentStatus.running),
                   ("b", mkAgent "b" AgentType.evaluator AgentStatus.running)],
        selectedAgentId := some "b" } : AgentStore).agents, id ≠ "")
    ∧ alistLookup "b"
        (handleEvent { initialStore with
          agents := [("a", mkAgent "a" AgentType.worker AgentStatus.running),
                     ("b", mkAgent "b" AgentType.evaluator AgentStatus.running)],
          selectedAgentId := some "b" } (killedMsg "b")).agents = none := by
  have hids : ∀ id ∈ alistKeys ({ initialStore with
      agents := [("a", mkAgent "a" AgentType.worker AgentStatus.running),
                 ("b", mkAgent "b" AgentType.evaluator AgentStatus.running)],
      selectedAgentId := some "b" } : AgentStore).agents, id ≠ "" := by
    intro id hid
    simp [alistKeys, initialStore] at hid
    rcases hid with h | h <;> simp [h]
  refine ⟨hids, ?_⟩
  exact (C9_agentKilled_cleanup _ "b" (by simp) hids).1

/-! ### C3: ping/pong keep-alive is application-invisible -/

/-- C3: a ping message is answered with exactly one pong, leaves the store
untouched and is never forwarded to the store's event handler; every
non-ping message is forwarded to `handleEvent` (and answered with
nothing). -/
theorem C3_ping_pong_invisible (store : AgentStore) (e : WSEventMsg) :
    (e.type = "ping" → onMessage store e = (store, [OutMsg.pong], []))
    ∧ (e.type ≠ "ping" → onMessage store e = (handleEvent store e, [], [e])) := by
  constructor
  · intro h
    simp [onMessage, h]
  · intro h
    simp [onMessage, h]

/-- C3 witness: a concrete ping and a concrete non-ping message. -/
theorem C3_ping_pong_invisible_witness :
    onMessage initialStore { type := "ping", timestamp := "" }
      = (initialStore, [OutMsg.pong], [])
    ∧ onMessage initialStore { type := "orchestrator_started", timestamp := "" }
      = (handleEvent initialStore { type := "orchestrator_started", timestamp := "" },
         [], [{ type := "orchestrator_started", timestamp := "" }]) := by
  exact ⟨(C3_ping_pong_invisible initialStore _).1 rfl,
    (C3_ping_pong_invisible initialStore _).2 (by simp)⟩

/-! ### C2: intentional close suppresses reconnection -/

theorem wsCleanup_flags (s : WSClient) :
    (wsCleanup s).isCleaningUp = true
    ∧ (wsCleanup s).reconnectTimeout = none
    ∧ (wsCleanup s).connectCount = s.connectCount
    ∧ (wsCleanup s).wsRef = none := by
  unfold wsCleanup
  cases s.wsRef <;> simp

theorem wsPassiveStep_cleaning (s : WSClient) (e : WSPassiveEv)
    (h₁ : s.isCleaningUp = true) (h₂ : s.reconnectTimeout = none) :
    (wsPassiveStep s e).isCleaningUp = true
    ∧ (wsPassiveStep s e).reconnectTimeout = none
    ∧ (wsPassiveStep s e).connectCount = s.connectCount
    ∧ (wsPassiveStep s e).wsRef = s.wsRef := by
  cases e with
  | closeEv w =>
      simp only [wsPassiveStep]
      unfold wsCloseFired
      by_cases hw : w ∈ s.attachedClose
      · simp [hw, h₁, h₂]
      · simp [hw, h₁, h₂]
  | openEv w =>
      simp only [wsPassiveStep]
      exact ⟨h₁, h₂, rfl, rfl⟩
  | timerEv =>
      simp only [wsPassiveStep]
      simp [wsTimerFired, h₁, h₂]

theorem wsRunPassive_cleaning : ∀ (evs : List WSPassiveEv) (s : WSClient),
    s.isCleaningUp = true → s.reconnectTimeout = none →
    (wsRunPassive s evs).isCleaningUp = true
    ∧ (wsRunPassive s evs).reconnectTimeout = none
    ∧ (wsRunPassive s evs).connectCount = s.connectCount
    ∧ (wsRunPassive s evs).wsRef = s.wsRef := by
  intro evs
  induction evs with
  | nil =>
      intro s h₁ h₂
      exact ⟨h₁, h₂, rfl, rfl⟩
  | cons e evs ih =>
      intro s h₁ h₂
      obtain ⟨g₁, g₂, g₃, g₄⟩ := wsPassiveStep_cleaning s e h₁ h₂
      obtain ⟨r₁, r₂, r₃, r₄⟩ := ih (wsPassiveStep s e) g₁ g₂
      have hstep : wsRunPassive s (e :: evs) = wsRunPassive (wsPassiveStep s e) evs := rfl
      rw [hstep]
      exact ⟨r₁, r₂, by rw [r₃, g₃], by rw [r₄, g₄]⟩

/-- C2: after the caller-initiated close (`wsCleanup`) any pending
reconnect timer is cancelled, and no sequence of subsequent close/open
events or timer firings — including the close event produced by the
intentional close itself — ever schedules a reconnect, opens a socket, or
re-arms a timer; conversely an unexpected closure of the current socket
while not cleaning up schedules a reconnect after the fixed 2000 ms
delay. -/
theorem C2_intentional_close_no_reconnect (s : WSClient) :
    (wsCleanup s).reconnectTimeout = none
    ∧ (∀ evs : List WSPassiveEv,
        (wsRunPassive (wsCleanup s) evs).reconnectTimeout = none
        ∧ (wsRunPassive (wsCleanup s) evs).connectCount = s.connectCount
        ∧ (wsRunPassive (wsCleanup s) evs).wsRef = none)
    ∧ (∀ (w : Nat), s.isCleaningUp = false → s.wsRef = some w →
        w ∈ s.attachedClose →
        (wsCloseFired s w).reconnectTimeout = some RECONNECT_DELAY_MS) := by
  obtain ⟨c₁, c₂, c₃, c₄⟩ := wsCleanup_flags s
  refine ⟨c₂, ?_, ?_⟩
  · intro evs
    obtain ⟨r₁, r₂, r₃, r₄⟩ := wsRunPassive_cleaning evs (wsCleanup s) c₁ c₂
    exact ⟨r₂, by rw [r₃, c₃], by rw [r₄, c₄]⟩
  · intro w h₁ h₂ h₃
    unfold wsCloseFired
    simp [h₁, h₂, h₃]

/-- C2 witness: mount a fresh client, close intentionally, then let the old
socket's close event and a stray timer fire; and an unexpected close on
the mounted client schedules the 2000 ms reconnect. -/
theorem C2_intentional_close_no_reconnect_witness :
    (wsRunPassive (wsCleanup (wsMount wsInit))
        [WSPassiveEv.closeEv 0, WSPassiveEv.timerEv]).reconnectTimeout = none
    ∧ (wsRunPassive (wsCleanup (wsMount wsInit))
        [WSPassiveEv.closeEv 0, WSPassiveEv.timerEv]).connectCount
        = (wsMount wsInit).connectCount
    ∧ (wsCloseFired (wsMount wsInit) 0).reconnectTimeout = some RECONNECT_DELAY_MS := by
  refine ⟨((C2_intentional_close_no_reconnect (wsMount wsInit)).2.1 _).1,
    ((C2_intentional_close_no_reconnect (wsMount wsInit)).2.1 _).2.1,
    (C2_intentional_close_no_reconnect (wsMount wsInit)).2.2 0 rfl rfl ?_⟩
  simp [wsMount, wsConnect, wsInit]

/-! ### C1: bulk actions have partial-failure semantics -/

theorem applyAgentAction_notFound (pool : List (String × AgentStatus)) (id : String)
    (action : BulkAction) (h : alistLookup id pool = none) :
    applyAgentAction pool id action = (ActionOutcome.notFound, pool) := by
  simp [applyAgentAction, h]

theorem applyAgentAction_preserves_none (pool : List (String × AgentStatus))
    (id : String) (action : BulkAction) (b : String)
    (h : alistLookup b pool = none) :
    alistLookup b (applyAgentAction pool id action).2 = none := by
  by_cases hid : id = b
  · subst hid
    rw [applyAgentAction_notFound pool id action h]
    exact h
  · have hb : b ≠ id := fun hbid => hid hbid.symm
    cases hl : alistLookup id pool with
    | none =>
        rw [applyAgentAction_notFound pool id action hl]
        exact h
    | some st =>
        cases action <;>
          simp only [applyAgentAction, hl] <;>
          split <;>
          simp [alistLookup_alistInsert_ne pool id b _ hb, h]

theorem bulk_shift (action : BulkAction) : ∀ (ids : List String)
    (acc : List (String × ActionOutcome)) (pool : List (String × AgentStatus)),
    List.foldl (bulkStep action) (acc, pool) ids
      = (acc ++ (List.foldl (bulkStep action) ([], pool) ids).1,
         (List.foldl (bulkStep action) ([], pool) ids).2) := by
  intro ids
  induction ids with
  | nil =>
      intro acc pool
      simp
  | cons id ids ih =>
      intro acc pool
      rw [List.foldl_cons, List.foldl_cons]
      rw [show bulkStep action (acc, pool) id
            = (acc ++ [(id, (applyAgentAction pool id action).1)],
               (applyAgentAction pool id action).2) from rfl]
      rw [show bulkStep action ([], pool) id
            = ([] ++ [(id, (applyAgentAction pool id action).1)],
               (applyAgentAction pool id action).2) from rfl]
      rw [ih (acc ++ [(id, (applyAgentAction pool id action).1)])
            (applyAgentAction pool id action).2,
          ih ([] ++ [(id, (applyAgentAction pool id action).1)])
            (applyAgentAction pool id action).2]
      simp

theorem bulk_pool_none (action : BulkAction) (b : String) : ∀ (ids : List String)
    (pool : List (String × AgentStatus)), alistLookup b pool = none →
    alistLookup b (bulkAction pool ids action).2 = none := by
  intro ids
  induction ids with
  | nil =>
      intro pool h
      exact h
  | cons id ids ih =>
      intro pool h
      show alistLookup b (List.foldl (bulkStep action) (bulkStep action ([], pool) id) ids).2
          = none
      rw [show bulkStep action ([], pool) id
            = ([] ++ [(id, (applyAgentAction pool id action).1)],
               (applyAgentAction pool id action).2) from rfl]
      rw [bulk_shift action ids _ _]
      exact ih (applyAgentAction pool id action).2
        (applyAgentAction_preserves_none pool id action b h)

theorem bulk_map_fst (action : BulkAction) : ∀ (ids : List String)
    (pool : List (String × AgentStatus)),
    ((bulkAction pool ids action).1).map Prod.fst = ids := by
  intro ids
  induction ids with
  | nil =>
      intro pool
      rfl
  | cons id ids ih =>
      intro pool
      show ((List.foldl (bulkStep action) (bulkStep action ([], pool) id) ids).1).map
          Prod.fst = id :: ids
      rw [show bulkStep action ([], pool) id
            = ([] ++ [(id, (applyAgentAction pool id action).1)],
               (applyAgentAction pool id action).2) from rfl]
      rw [bulk_shift action ids _ _]
      simpa using ih (applyAgentAction pool id action).2

/-- C1: a bulk action reports one outcome per id, in order; an unknown id
contributes a `NotFound` outcome, leaves the pool untouched and never
aborts the rest of the batch; and the spec's example batch behaves as
documented. -/
theorem C1_bulkAction_partial_failure :
    (∀ (pool : List (String × AgentStatus)) (ids : List String) (action : BulkAction),
        ((bulkAction pool ids action).1).map Prod.fst = ids)
    ∧ (∀ (pool : List (String × AgentStatus)) (ids₁ : List String) (b : String)
        (ids₂ : List String) (action : BulkAction),
        alistLookup b pool = none →
        bulkAction pool (ids₁ ++ b :: ids₂) action
          = ((bulkAction pool ids₁ action).1
              ++ (b, ActionOutcome.notFound)
                :: (bulkAction (bulkAction pool ids₁ action).2 ids₂ action).1,
             (bulkAction (bulkAction pool ids₁ action).2 ids₂ action).2))
    ∧ bulkAction [("a", AgentStatus.running), ("c", AgentStatus.running)]
        ["a", "b", "c"] BulkAction.pause
        = ([("a", ActionOutcome.success), ("b", ActionOutcome.notFound),
            ("c", ActionOutcome.success)],
           [("a", AgentStatus.paused), ("c", AgentStatus.paused)]) := by
  refine ⟨fun pool ids action => bulk_map_fst action ids pool, ?_, rfl⟩
  intro pool ids₁ b ids₂ action h
  have hb₁ : alistLookup b (bulkAction pool ids₁ action).2 = none :=
    bulk_pool_none action b ids₁ pool h
  show List.foldl (bulkStep action) ([], pool) (ids₁ ++ b :: ids₂) = _
  rw [List.foldl_append, List.foldl_cons]
  rw [show List.foldl (bulkStep action) ([], pool) ids₁ = bulkAction pool ids₁ action from rfl]
  rw [show bulkStep action (bulkAction pool ids₁ action) b
        = ((bulkAction pool ids₁ action).1
            ++ [(b, (applyAgentAction (bulkAction pool ids₁ action).2 b action).1)],
           (applyAgentAction (bulkAction pool ids₁ action).2 b action).2) from rfl]
  rw [applyAgentAction_notFound _ b action hb₁]
  rw [bulk_shift action ids₂ _ _]
  simp [bulkAction]

/-- C1 witness: the middle conjunct at the spec's example inputs. -/
theorem C1_bulkAction_partial_failure_witness :
    alistLookup "b" [("a", AgentStatus.running), ("c", AgentStatus.running)] = none
    ∧ bulkAction [("a", AgentStatus.running), ("c", AgentStatus.running)]
        (["a"] ++ "b" :: ["c"]) BulkAction.pause
        = ((bulkAction [("a", AgentStatus.running), ("c", AgentStatus.running)]
              ["a"] BulkAction.pause).1
            ++ ("b", ActionOutcome.notFound)
              :: (bulkAction (bulkAction [("a", AgentStatus.running),
                    ("c", AgentStatus.running)] ["a"] BulkAction.pause).2
                  ["c"] BulkAction.pause).1,
           (bulkAction (bulkAction [("a", AgentStatus.running),
                ("c", AgentStatus.running)] ["a"] BulkAction.pause).2
              ["c"] BulkAction.pause).2) := by
  refine ⟨rfl, ?_⟩
  exact C1_bulkAction_partial_failure.2.1
    [("a", AgentStatus.running), ("c", AgentStatus.running)]
    ["a"] "b" ["c"] BulkAction.pause rfl

/-! ### C6: guidance is durably appended before notification -/

theorem chanOf_injectGuidance (d : Bool) (s : CommState) (id c : String) :
    chanOf (injectGuidance d s id c) id = chanOf s id ++ [c] := by
  cases d <;>
    simp [injectGuidance, injectGuidanceOps, applyCommOp, chanOf, alistLookup_alistInsert]

/-- C6: each `injectGuidance` runs the durable channel append strictly
before the EventBus publish, and N sequential calls for one agent leave
exactly their N contents in the durable channel, in call order, whatever
the per-call EventBus delivery fates. -/
theorem C6_injectGuidance_durable_order :
    (∀ id c, injectGuidanceOps id c
        = [CommOp.chanAppend id c, CommOp.publish id c])
    ∧ (∀ (s : CommState) (id : String) (calls : List (String × Bool)),
        chanOf (calls.foldl (fun st p => injectGuidance p.2 st id p.1) s) id
          = chanOf s id ++ calls.map Prod.fst) := by
  constructor
  · intro id c
    rfl
  · intro s id calls
    induction calls generalizing s with
    | nil => simp
    | cons p calls ih =>
        rw [List.foldl_cons, ih, chanOf_injectGuidance]
        simp

/-! ### C7: cycle numbers are strictly increasing and never reused -/

/-- The Orchestrator's numbering invariant: recorded numbers are strictly
increasing and all lie below the counter. -/
def orchInv (s : OrchState) : Prop :=
  List.Chain' (· < ·) (s.history.map Prod.fst)
  ∧ ∀ n ∈ s.history.map Prod.fst, n < s.cycleCounter

theorem orchStep_inv (s : OrchState) (op : OrchOp) (h : orchInv s) :
    orchInv (orchStep s op) := by
  obtain ⟨hc, hb⟩ := h
  cases op with
  | start =>
      simp only [orchStep]
      split
      · exact ⟨hc, hb⟩
      · exact ⟨hc, hb⟩
  | stop => exact ⟨hc, hb⟩
  | forceStop => exact ⟨hc, hb⟩
  | finishCycle b =>
      simp only [orchStep]
      by_cases hr : s.running = true
      · simp only [hr, if_true]
        constructor
        · rw [List.map_append, List.chain'_append]
          refine ⟨hc, List.chain'_singleton _, ?_⟩
          intro x hx y hy
          simp only [List.map_cons, List.map_nil, List.head?_cons, Option.mem_def,
            Option.some.injEq] at hy
          subst hy
          exact hb x (List.mem_of_mem_getLast? hx)
        · intro n hn
          rw [List.map_append] at hn
          rcases List.mem_append.mp hn with h₁ | h₂
          · exact Nat.lt_succ_of_lt (hb n h₁)
          · simp only [List.map_cons, List.map_nil, List.mem_singleton] at h₂
            subst h₂
            exact Nat.lt_succ_self _
      · simp only [hr, if_false]
        exact ⟨hc, hb⟩

theorem orchRun_inv (ops : List OrchOp) : orchInv (orchRun ops) := by
  have hgen : ∀ (l : List OrchOp) (s : OrchState), orchInv s → orchInv (l.foldl orchStep s) := by
    intro l
    induction l with
    | nil => intro s h; exact h
    | cons op l ih =>
        intro s h
        exact ih (orchStep s op) (orchStep_inv s op h)
  exact hgen ops orchInit ⟨List.chain'_nil, by simp [orchInit]⟩

/-- C7: along any operation sequence — stops, force-stops and restarts
included — the recorded cycle numbers are strictly increasing and pairwise
distinct; one attempted cycle while running appends exactly one record
(carrying the current counter), and no other operation ever appends one. -/
theorem C7_cycle_numbers_strictly_increasing :
    (∀ ops : List OrchOp,
        List.Chain' (· < ·) (((orchRun ops).history).map Prod.fst))
    ∧ (∀ ops : List OrchOp, (((orchRun ops).history).map Prod.fst).Nodup)
    ∧ (∀ (s : OrchState) (b : Bool), s.running = true →
        (orchStep s (OrchOp.finishCycle b)).history
          = s.history ++ [(s.cycleCounter, b)])
    ∧ (∀ (s : OrchState) (op : OrchOp), (∀ b, op ≠ OrchOp.finishCycle b) →
        (orchStep s op).history = s.history) := by
  refine ⟨fun ops => (orchRun_inv ops).1, ?_, ?_, ?_⟩
  · intro ops
    have hc := (orchRun_inv ops).1
    have hp := List.chain'_iff_pairwise.mp hc
    exact hp.imp (fun hlt => Nat.ne_of_lt hlt)
  · intro s b hr
    simp [orchStep, hr]
  · intro s op hop
    cases op with
    | start =>
        simp only [orchStep]
        split <;> rfl
    | stop => rfl
    | forceStop => rfl
    | finishCycle b => exact absurd rfl (hop b)

/-- C7 witness: a run with a force-stop and restart still yields the
records `[1, 2]`, and the component facts at concrete states. -/
theorem C7_cycle_numbers_strictly_increasing_witness :
    List.Chain' (· < ·)
      (((orchRun [OrchOp.start, OrchOp.finishCycle true, OrchOp.forceStop,
          OrchOp.start, OrchOp.finishCycle false]).history).map Prod.fst)
    ∧ (orchStep (orchStep orchInit OrchOp.start) (OrchOp.finishCycle true)).history
        = (orchStep orchInit OrchOp.start).history
          ++ [((orchStep orchInit OrchOp.start).cycleCounter, true)]
    ∧ (orchStep orchInit OrchOp.forceStop).history = orchInit.history := by
  exact ⟨C7_cycle_numbers_strictly_increasing.1 _,
    C7_cycle_numbers_strictly_increasing.2.2.1 _ true rfl,
    C7_cycle_numbers_strictly_increasing.2.2.2 orchInit OrchOp.forceStop (by decide)⟩

/-! ### C10: `parseCodeBlocks` totality and the no-fence case -/

/-- C10: `parseCodeBlocks` never returns an empty list, and on an input
with no code-fence match (the embedded regex search `findMatch` finds
nothing) it returns exactly one text part carrying the input unchanged —
including for the empty and whitespace-only strings. -/
theorem C10_parseCodeBlocks_no_fence :
    (∀ text : String, parseCodeBlocks text ≠ [])
    ∧ (∀ text : String, findMatch text.data = none →
        parseCodeBlocks text = [⟨PartType.text, text, none⟩]) := by
  constructor
  · intro text hcontra
    simp only [parseCodeBlocks] at hcontra
    split at hcontra
    · simp at hcontra
    · next hne =>
        rw [hcontra] at hne
        simp at hne
  · intro text h
    have hmk : String.mk text.data = text := rfl
    have hloop : parseLoop (text.data.length + 1) text.data []
        = if text.data.length ≠ 0 then
            (if jsTrimTruthy text.data then
              [⟨PartType.text, String.mk text.data, none⟩]
            else [])
          else [] := by
      rw [show text.data.length + 1 = Nat.succ text.data.length from rfl]
      simp only [parseLoop, h]
      rfl
    by_cases hlen : text.data.length = 0
    · have hnil : text.data = [] := List.length_eq_zero.mp hlen
      rw [parseCodeBlocks, hloop]
      simp [hlen]
    · by_cases htrim : jsTrimTruthy text.data
      · rw [parseCodeBlocks, hloop]
        simp [hlen, htrim, hmk]
      · rw [parseCodeBlocks, hloop]
        simp [hlen, htrim]

/-- C10 witness: a plain string with no fence parses to itself. -/
theorem C10_parseCodeBlocks_no_fence_witness :
    findMatch ("hello".data) = none
    ∧ parseCodeBlocks "hello" = [⟨PartType.text, "hello", none⟩] := by
  have h : findMatch ("hello".data) = none := by decide
  exact ⟨h, C10_parseCodeBlocks_no_fence.2 "hello" h⟩

end EvolutionSuite
